import Mathlib

/-!
Verification of the financial-exclusion analysis pipeline in
`src/data.ipynb`.  The pipeline stages (median/mode imputation,
categorical encoding, min-max normalization, PCA component selection,
composite engagement and literacy scores, KMeans exclusion labelling,
and the classifier-bench configuration) are embedded shallowly:
numeric cells are rationals, missing values are `Option`, tables are
lists of named columns or lists of rows.  Calls into pandas and
scikit-learn are embedded according to the libraries' documented
behaviour; the seeded iterative KMeans optimisation and the PCA basis
computation are abstracted behind interface data, with theorems
quantifying over any result satisfying the library's interface
guarantees.
-/

namespace DataPipeline

/-- Single insertion step of insertion sort by a boolean order. -/
def insertBy {α : Type} (le : α → α → Bool) (a : α) : List α → List α
  | [] => [a]
  | b :: bs => if le a b then a :: b :: bs else b :: insertBy le a bs

/-- Insertion sort by a boolean order; models the sorted order used by
`numpy.unique`, `numpy.median` and `pandas.get_dummies` categories. -/
def sortBy {α : Type} (le : α → α → Bool) : List α → List α
  | [] => []
  | a :: as => insertBy le a (sortBy le as)

/-- Lexicographic order on character lists via character codes. -/
def charListLe : List Char → List Char → Bool
  | [], _ => true
  | _ :: _, [] => false
  | a :: as, b :: bs => if a = b then charListLe as bs else decide (a.val < b.val)

/-- Boolean lexicographic order on strings. -/
def strLeB (a b : String) : Bool := charListLe a.toList b.toList

/-- Boolean order on rationals. -/
def qLeB (a b : ℚ) : Bool := decide (a ≤ b)

/-- Concatenation of a list of lists. -/
def concatLists {α : Type} : List (List α) → List α
  | [] => []
  | l :: ls => l ++ concatLists ls

/-- Index of the first occurrence of a string in a list (length of the
list when absent); models `pandas` column lookup by name. -/
def idxOfStr (v : String) : List String → Nat
  | [] => 0
  | x :: xs => if x = v then 0 else idxOfStr v xs + 1

/-- Does the character list `pat` occur at the start of `text`? -/
def startsWithChars : List Char → List Char → Bool
  | [], _ => true
  | _ :: _, [] => false
  | p :: ps, t :: ts => p == t && startsWithChars ps ts

/-- Substring test on character lists; models Python's `in` on strings. -/
def hasSub (pat : List Char) : List Char → Bool
  | [] => pat.isEmpty
  | c :: cs => startsWithChars pat (c :: cs) || hasSub pat cs

/-- Lower-cased character list of a string; models `str.lower()`. -/
def lowerChars (s : String) : List Char := s.toList.map Char.toLower

/-- Arithmetic mean (`numpy.mean`); the empty list yields `0`, a case
the pipeline never reaches. -/
def mean (l : List ℚ) : ℚ := l.sum / (l.length : ℚ)

/-- `numpy.median`: the middle element of the sorted list, or the
average of the two middle elements when the length is even. -/
def median (l : List ℚ) : ℚ :=
  if (sortBy qLeB l).length % 2 = 1 then
    (sortBy qLeB l).getD ((sortBy qLeB l).length / 2) 0
  else if (sortBy qLeB l).length = 0 then 0
  else
    ((sortBy qLeB l).getD ((sortBy qLeB l).length / 2 - 1) 0 +
      (sortBy qLeB l).getD ((sortBy qLeB l).length / 2) 0) / 2

/-- Most frequent value of a string column, ties resolved to the
smallest value, as `SimpleImputer` with the most-frequent strategy
does in scikit-learn. -/
def modeStr (l : List String) : String :=
  match sortBy strLeB l.dedup with
  | [] => ""
  | v :: vs => vs.foldl (fun b w => if l.count b < l.count w then w else b) v

/-- Median imputation of one numeric column: each missing entry is
replaced by the median of the column's non-missing values
(`SimpleImputer` with the median strategy in `preprocess_data`). -/
def imputeNumericCol (col : List (Option ℚ)) : List ℚ :=
  col.map (fun o => o.getD (median (col.filterMap id)))

/-- Most-frequent imputation of one categorical column
(`SimpleImputer` with the most-frequent strategy in `preprocess_data`). -/
def imputeCatCol (col : List (Option String)) : List String :=
  col.map (fun o => o.getD (modeStr (col.filterMap id)))

/-- Minimum of a rational list, `0` for the empty list. -/
def listMinD : List ℚ → ℚ
  | [] => 0
  | x :: xs => xs.foldl min x

/-- Maximum of a rational list, `0` for the empty list. -/
def listMaxD : List ℚ → ℚ
  | [] => 0
  | x :: xs => xs.foldl max x

/-- `MinMaxScaler` on one column: `(x - min) / (max - min)`, a zero
range being replaced by `1` exactly as scikit-learn's handling of
constant columns does. -/
def minmaxScale (col : List ℚ) : List ℚ :=
  col.map (fun x =>
    (x - listMinD col) /
      (if listMaxD col - listMinD col = 0 then 1 else listMaxD col - listMinD col))

/-- Number of distinct values of a string column
(`pandas.Series.nunique`; the pipeline applies it after imputation, so
no missing values remain). -/
def nuniqueStr (l : List String) : Nat := l.dedup.length

/-- `pandas.get_dummies` on one categorical column: one 0/1 indicator
column per distinct category, in sorted category order, named
`column_value`. -/
def getDummies (name : String) (vals : List String) : List (String × List ℚ) :=
  (sortBy strLeB vals.dedup).map
    (fun v => (name ++ "_" ++ v, vals.map (fun x => if x = v then (1 : ℚ) else 0)))

/-- `LabelEncoder.fit_transform` on one column: each value is replaced
by its index among the sorted distinct values. -/
def labelEncode (vals : List String) : List ℚ :=
  vals.map (fun v => ((idxOfStr v (sortBy strLeB vals.dedup)) : ℚ))

/-- Categorical encoding of `preprocess_data`: `get_dummies` is applied
to every categorical column, and every column with more than 10
distinct values additionally receives an integer-coded
`column_encoded` companion. -/
def encodeCatColumns (cats : List (String × List String)) : List (String × List ℚ) :=
  concatLists (cats.map (fun p => getDummies p.1 p.2)) ++
    ((cats.filter (fun p => decide (10 < nuniqueStr p.2))).map
      (fun p => (p.1 ++ "_encoded", labelEncode p.2)))

/-- `PCA.transform` with fitted components and mean: each centred row
is projected onto each component.  The SVD that produces the
components is abstracted; only the shape behaviour matters here. -/
def pcaTransform (comps : List (List ℚ)) (mu : List ℚ) (rows : List (List ℚ)) :
    List (List ℚ) :=
  rows.map (fun r => comps.map (fun c =>
    (List.zipWith (fun a b => a * b) c (List.zipWith (fun x m => x - m) r mu)).sum))

/-- Running cumulative sums starting from `acc`. -/
def cumsumFrom (acc : ℚ) : List ℚ → List ℚ
  | [] => []
  | r :: rs => (acc + r) :: cumsumFrom (acc + r) rs

/-- Cumulative sums (`numpy.cumsum`). -/
def cumsum (l : List ℚ) : List ℚ := cumsumFrom 0 l

/-- Number of components scikit-learn's `PCA(n_components=thr)` with a
fractional threshold retains: `searchsorted(cumsum, thr, side right) + 1`,
i.e. one more than the number of cumulative ratios that are `≤ thr`. -/
def pcaSelectNComponents (ratios : List ℚ) (thr : ℚ) : Nat :=
  ((cumsum ratios).countP (fun c => decide (c ≤ thr))) + 1

/-- First 1-based position whose entry strictly exceeds `thr`
(`length + 1` when none does). -/
def firstIdxGt (thr : ℚ) : List ℚ → Nat
  | [] => 1
  | c :: cs => if thr < c then 1 else firstIdxGt thr cs + 1

/-- Formalisation of the claim's selection rule, following the spec's
words: the minimum 1-based position whose cumulative explained
variance ratio is at least `thr` (`length + 1` when none is). -/
def firstIdxGe (thr : ℚ) : List ℚ → Nat
  | [] => 1
  | c :: cs => if thr ≤ c then 1 else firstIdxGe thr cs + 1

/-- Raw columns whose name contains "transaction", case-insensitively
(`calculate_financial_engagement_score`). -/
def transactionCols (cols : List (String × List ℚ)) : List (String × List ℚ) :=
  cols.filter (fun p => hasSub "transaction".toList (lowerChars p.1))

/-- Raw columns whose name contains "savings", case-insensitively. -/
def savingsCols (cols : List (String × List ℚ)) : List (String × List ℚ) :=
  cols.filter (fun p => hasSub "savings".toList (lowerChars p.1))

/-- Independent min-max normalization of each column of a group, as
`MinMaxScaler.fit_transform` does column-wise. -/
def normalizedGroup (grp : List (String × List ℚ)) : List (List ℚ) :=
  grp.map (fun p => minmaxScale p.2)

/-- Row-wise mean of a group of columns at row `i` (`mean(axis=1)`). -/
def groupRowMean (grp : List (List ℚ)) (i : Nat) : ℚ :=
  mean (grp.map (fun c => (c.get? i).getD 0))

/-- Embedding of `calculate_financial_engagement_score`: for each of
the `n` rows, `0.6` times the row-wise mean of the normalized
transaction columns plus `0.4` times the row-wise mean of the
normalized savings columns. -/
def engagementScores (cols : List (String × List ℚ)) (n : Nat) : List ℚ :=
  (List.range n).map (fun i =>
    0.6 * groupRowMean (normalizedGroup (transactionCols cols)) i +
      0.4 * groupRowMean (normalizedGroup (savingsCols cols)) i)

/-- The fixed education lookup of
`calculate_financial_literacy_score`; values outside the lookup map to
`none`, the embedding of the NaN that `pandas.Series.map` produces. -/
def educationMapping (s : String) : Option ℚ :=
  if s = "Primary" then some 1
  else if s = "Secondary" then some 2
  else if s = "Tertiary" then some 3
  else if s = "University" then some 4
  else none

/-- NaN-aware `MinMaxScaler` on one column: missing entries are
ignored when computing the minimum and maximum and are mapped to
missing, which is scikit-learn's documented NaN handling. -/
def minmaxScaleOpt (col : List (Option ℚ)) : List (Option ℚ) :=
  col.map (Option.map (fun x =>
    (x - listMinD (col.filterMap id)) /
      (if listMaxD (col.filterMap id) - listMinD (col.filterMap id) = 0 then 1
       else listMaxD (col.filterMap id) - listMinD (col.filterMap id))))

/-- Embedding of `calculate_financial_literacy_score`: map education
through the fixed lookup, min-max normalize it and the quintile
column, and combine with weights `0.6`/`0.4`.  A missing (NaN)
education value propagates to a missing score. -/
def literacyScores (edu : List String) (qui : List ℚ) : List (Option ℚ) :=
  List.zipWith (fun e q => Option.map (fun ev => 0.6 * ev + 0.4 * q) e)
    (minmaxScaleOpt (edu.map educationMapping)) (minmaxScale qui)

/-- Result of a fitted scikit-learn KMeans: the feature count recorded
at fit time, the cluster centers, and the labels that `fit_predict`
returned.  The seeded iterative optimisation itself is abstracted:
theorems quantify over any fit result satisfying the library's
interface guarantees. -/
structure FittedKMeans where
  nFeaturesIn : Nat
  centers : List (List ℚ)
  labels : List Nat

/-- Squared euclidean distance of two vectors. -/
def sqDist (a b : List ℚ) : ℚ := (List.zipWith (fun x y => (x - y) * (x - y)) a b).sum

/-- Index of the first element minimising `f` (`0` on the empty list);
models `pandas.Series.idxmin` and nearest-center selection. -/
def argminIdx {α : Type} (f : α → ℚ) : List α → Nat
  | [] => 0
  | x :: xs =>
    match xs with
    | [] => 0
    | y :: ys =>
      if f ((y :: ys).getD (argminIdx f (y :: ys)) y) < f x
      then argminIdx f (y :: ys) + 1 else 0

/-- Error message for the scikit-learn feature-count validation. -/
def featureMismatchMsg : String := "Incorrect number of features"

/-- `KMeans.predict`: scikit-learn validates the feature count of the
query against the count recorded at fit time and then returns the
index of the nearest center. -/
def kmeansPredict (m : FittedKMeans) (v : List ℚ) : Except String Nat :=
  if v.length = m.nFeaturesIn then
    Except.ok (argminIdx (fun c => sqDist c v) m.centers)
  else Except.error featureMismatchMsg

/-- Embedding of `cluster_financial_exclusion`: fit KMeans on the
processed rows, append the `exclusion_cluster` column in place, then
re-query the fitted model with the full row — including the just-added
cluster column — of the respondent whose `financial_engagement_score`
is minimal, and label every row by equality with the returned cluster
id. -/
def clusterFinancialExclusion (fit : List (List ℚ) → FittedKMeans)
    (names : List String) (rows : List (List ℚ)) :
    Except String (List String × List (List ℚ)) :=
  match kmeansPredict (fit rows)
      (((List.zipWith (fun r (c : Nat) => r ++ [(c : ℚ)]) rows (fit rows).labels).get?
          (argminIdx (fun r => (r.get? (idxOfStr "financial_engagement_score" names)).getD 0)
            (List.zipWith (fun r (c : Nat) => r ++ [(c : ℚ)]) rows (fit rows).labels))).getD []) with
  | Except.error e => Except.error e
  | Except.ok c0 =>
    Except.ok (names ++ ["exclusion_cluster", "financial_exclusion_label"],
      List.zipWith (fun r (c : Nat) => r ++ [(c : ℚ), if c = c0 then 1 else 0])
        rows (fit rows).labels)

/-- Boolean success test for `Except` results. -/
def isOkE {α : Type} : Except String α → Bool
  | Except.ok _ => true
  | Except.error _ => false

/-- A concrete deterministic stand-in for a fitted KMeans used in
witnesses: the centers are the first two rows and every row is
assigned to cluster 0.  The theorems about the clustering stage
quantify over every fit result satisfying the library interface, so
any concrete instance suffices to instantiate them. -/
def simpleKMeansFit (X : List (List ℚ)) : FittedKMeans :=
  { nFeaturesIn := (X.headD []).length
    centers := [X.headD [], X.getD 1 (X.headD [])]
    labels := X.map (fun _ => 0) }

/-- Feature extraction of `train_classification_models`: `X` is the
processed table with exactly the `financial_exclusion_label` column
dropped. -/
def trainFeatures (cols : List (String × List ℚ)) : List (String × List ℚ) :=
  cols.filter (fun p => !(p.1 == "financial_exclusion_label"))

/-- Configuration of one bench classifier as constructed in
`train_classification_models`, together with whether its fitted state
that predictions depend on draws random numbers during training —
scikit-learn's documented behaviour: bootstrap sampling in the random
forest and per-split feature permutation in gradient boosting do, the
lbfgs logistic-regression solver and the libsvm SVC fit do not. -/
structure ModelConfig where
  name : String
  nEstimators : Option Nat
  maxIter : Option Nat
  probability : Bool
  randomState : Option Nat
  fitDrawsRandomNumbers : Bool

/-- The four classifiers exactly as constructed in the source: none of
them is given a `random_state`. -/
def benchModels : List ModelConfig :=
  [⟨"Logistic Regression", none, some 1000, false, none, false⟩,
   ⟨"Random Forest", some 100, none, false, none, true⟩,
   ⟨"Gradient Boosting", some 100, none, false, none, true⟩,
   ⟨"SVM", none, none, true, none, false⟩]

/-- The seed passed to `train_test_split` in the source. -/
def trainTestSplitRandomState : Option Nat := some 42

/-- The test fraction passed to `train_test_split` in the source. -/
def testSize : ℚ := 1/5

/-- Folding `min` over a list never exceeds the initial value. -/
theorem foldl_min_le_init (l : List ℚ) : ∀ b : ℚ, l.foldl min b ≤ b := by
  induction l with
  | nil => intro b; exact le_refl b
  | cons x xs ih =>
    intro b
    exact le_trans (ih (min b x)) (min_le_left b x)

/-- Folding `min` over a list never exceeds any member. -/
theorem foldl_min_le_mem (l : List ℚ) (x : ℚ) (hx : x ∈ l) :
    ∀ b : ℚ, l.foldl min b ≤ x := by
  induction l with
  | nil => cases hx
  | cons y ys ih =>
    intro b
    rcases List.mem_cons.mp hx with h | h
    · subst h
      exact le_trans (foldl_min_le_init ys (min b x)) (min_le_right b x)
    · exact ih h (min b y)

/-- Folding `max` over a list is at least the initial value. -/
theorem init_le_foldl_max (l : List ℚ) : ∀ b : ℚ, b ≤ l.foldl max b := by
  induction l with
  | nil => intro b; exact le_refl b
  | cons x xs ih =>
    intro b
    exact le_trans (le_max_left b x) (ih (max b x))

/-- Folding `max` over a list is at least any member. -/
theorem mem_le_foldl_max (l : List ℚ) (x : ℚ) (hx : x ∈ l) :
    ∀ b : ℚ, x ≤ l.foldl max b := by
  induction l with
  | nil => cases hx
  | cons y ys ih =>
    intro b
    rcases List.mem_cons.mp hx with h | h
    · subst h
      exact le_trans (le_max_right b x) (init_le_foldl_max ys (max b x))
    · exact ih h (max b y)

/-- The column minimum bounds every member from below. -/
theorem listMinD_le (col : List ℚ) (x : ℚ) (hx : x ∈ col) : listMinD col ≤ x := by
  cases col with
  | nil => cases hx
  | cons c cs =>
    rcases List.mem_cons.mp hx with h | h
    · subst h; exact foldl_min_le_init cs x
    · exact foldl_min_le_mem cs x h c

/-- The column maximum bounds every member from above. -/
theorem le_listMaxD (col : List ℚ) (x : ℚ) (hx : x ∈ col) : x ≤ listMaxD col := by
  cases col with
  | nil => cases hx
  | cons c cs =>
    rcases List.mem_cons.mp hx with h | h
    · subst h; exact init_le_foldl_max cs x
    · exact mem_le_foldl_max cs x h c

/-- A column with two distinct values has a strictly smaller minimum
than maximum. -/
theorem listMinD_lt_listMaxD (col : List ℚ)
    (hd : ∃ a ∈ col, ∃ b ∈ col, a ≠ b) :
    listMinD col < listMaxD col := by
  obtain ⟨a, ha, b, hb, hab⟩ := hd
  by_contra hle
  push_neg at hle
  have ha1 : a = listMinD col :=
    le_antisymm (le_trans (le_listMaxD col a ha) hle) (listMinD_le col a ha)
  have hb1 : b = listMinD col :=
    le_antisymm (le_trans (le_listMaxD col b hb) hle) (listMinD_le col b hb)
  exact hab (ha1.trans hb1.symm)

/-- Claim C3: for every numeric column with at least two distinct
values, min-max normalization sends the entry `x` at position `i` to
`(x - min) / (max - min)` computed from that column's own minimum and
maximum, the normalized entry lies in `[0, 1]`, the column minimum
maps to `0` and the column maximum maps to `1`. -/
theorem c3_normalizer_confirmed (col : List ℚ) (i : Nat) (x : ℚ)
    (hd : ∃ a ∈ col, ∃ b ∈ col, a ≠ b)
    (hx : col.get? i = some x) :
    (minmaxScale col).get? i =
      some ((x - listMinD col) / (listMaxD col - listMinD col)) ∧
    0 ≤ (x - listMinD col) / (listMaxD col - listMinD col) ∧
    (x - listMinD col) / (listMaxD col - listMinD col) ≤ 1 ∧
    (x = listMinD col → (minmaxScale col).get? i = some 0) ∧
    (x = listMaxD col → (minmaxScale col).get? i = some 1) := by
  have hlt := listMinD_lt_listMaxD col hd
  have hne : listMaxD col - listMinD col ≠ 0 := sub_ne_zero.mpr (ne_of_gt hlt)
  have hpos : 0 < listMaxD col - listMinD col := sub_pos.mpr hlt
  have hxm : x ∈ col := List.get?_mem hx
  have hmnx : listMinD col ≤ x := listMinD_le col x hxm
  have hxmx : x ≤ listMaxD col := le_listMaxD col x hxm
  have hscale : minmaxScale col =
      col.map (fun y => (y - listMinD col) / (listMaxD col - listMinD col)) := by
    simp only [minmaxScale, if_neg hne]
  have hget : (minmaxScale col).get? i =
      some ((x - listMinD col) / (listMaxD col - listMinD col)) := by
    rw [hscale, List.get?_map, hx]
    rfl
  refine ⟨hget, ?_, ?_, ?_, ?_⟩
  · exact div_nonneg (sub_nonneg.mpr hmnx) (le_of_lt hpos)
  · rw [div_le_one hpos]
    exact sub_le_sub_right hxmx _
  · intro hxeq
    rw [hget, hxeq, sub_self, zero_div]
  · intro hxeq
    rw [hget, hxeq, div_self hne]

/-- Witness for C3 at the column `[10, 20, 40]`: `10` normalizes to
`0` and `40` to `1`. -/
theorem c3_witness :
    (DataPipeline.minmaxScale [10, 20, 40]).get? 0 = some 0 ∧
    (DataPipeline.minmaxScale [10, 20, 40]).get? 2 = some 1 :=
  ⟨(c3_normalizer_confirmed [10, 20, 40] 0 10
      ⟨10, by decide, 20, by decide, by decide⟩ (by decide)).2.2.2.1 (by decide),
   (c3_normalizer_confirmed [10, 20, 40] 2 40
      ⟨10, by decide, 20, by decide, by decide⟩ (by decide)).2.2.2.2 (by decide)⟩

/-- Claim C4: for columns with at least one non-missing entry,
imputation leaves non-missing entries unchanged, fills numeric missing
entries with the column median and categorical missing entries with
the column's most frequent value, and reproduces the spec's worked
example: `txn_amt = [10, 20, missing, 40, 50]` imputes to `30` and
normalizes to `[0, 1/4, 1/2, 3/4, 1]`, and the missing education value
imputes to `Secondary`. -/
theorem c4_imputer_confirmed :
    (∀ (col : List (Option ℚ)) (i : Nat) (x : ℚ),
      col.filterMap id ≠ [] →
      ((col.get? i = some (some x) → (imputeNumericCol col).get? i = some x) ∧
       (col.get? i = some none →
         (imputeNumericCol col).get? i = some (median (col.filterMap id))))) ∧
    (∀ (col : List (Option String)) (i : Nat) (s : String),
      col.filterMap id ≠ [] →
      ((col.get? i = some (some s) → (imputeCatCol col).get? i = some s) ∧
       (col.get? i = some none →
         (imputeCatCol col).get? i = some (modeStr (col.filterMap id))))) ∧
    imputeNumericCol [some 10, some 20, none, some 40, some 50] =
      [10, 20, 30, 40, 50] ∧
    minmaxScale (imputeNumericCol [some 10, some 20, none, some 40, some 50]) =
      [0, 1/4, 1/2, 3/4, 1] ∧
    imputeCatCol [some "Primary", some "Secondary", some "Secondary",
        some "Tertiary", none] =
      ["Primary", "Secondary", "Secondary", "Tertiary", "Secondary"] := by
  have hf : (List.filterMap id [some (10 : ℚ), some 20, none, some 40, some 50]) =
      [10, 20, 40, 50] := by decide
  have hsrt : sortBy qLeB [(10 : ℚ), 20, 40, 50] = [10, 20, 40, 50] := by decide
  have hmed : median (List.filterMap id
      [some (10 : ℚ), some 20, none, some 40, some 50]) = 30 := by
    unfold median
    rw [hf, hsrt]
    norm_num
  have hex1 : imputeNumericCol [some 10, some 20, none, some 40, some 50] =
      [10, 20, 30, 40, 50] := by
    unfold imputeNumericCol
    rw [hmed]
    decide
  have hex2 : minmaxScale [10, 20, 30, 40, 50] = [0, 1/4, 1/2, 3/4, 1] := by
    have hmn : listMinD [(10 : ℚ), 20, 30, 40, 50] = 10 := by decide
    have hmx : listMaxD [(10 : ℚ), 20, 30, 40, 50] = 50 := by decide
    unfold minmaxScale
    rw [hmn, hmx]
    norm_num
  refine ⟨?_, ?_, hex1, by rw [hex1]; exact hex2, by decide⟩
  · intro col i x _
    constructor
    · intro h
      simp only [imputeNumericCol, List.get?_map, h, Option.map_some]
      rfl
    · intro h
      simp only [imputeNumericCol, List.get?_map, h, Option.map_some]
      rfl
  · intro col i s _
    constructor
    · intro h
      simp only [imputeCatCol, List.get?_map, h, Option.map_some]
      rfl
    · intro h
      simp only [imputeCatCol, List.get?_map, h, Option.map_some]
      rfl

/-- Witness for C4: the missing entry of `[10, 20, missing, 40, 50]`
receives the median `30`, and a non-missing categorical entry is
unchanged. -/
theorem c4_witness :
    (DataPipeline.imputeNumericCol [some 10, some 20, none, some 40, some 50]).get? 2 =
      some 30 ∧
    (DataPipeline.imputeCatCol [some "Primary", none]).get? 0 = some "Primary" := by
  constructor
  · rw [c4_imputer_confirmed.2.2.1]
    decide
  · exact (c4_imputer_confirmed.2.1 [some "Primary", none] 0 "Primary"
      (by decide)).1 (by decide)

/-- Every entry of a min-max normalized column lies in the unit
interval, the constant-column case included. -/
theorem minmaxScale_mem (col : List ℚ) (x : ℚ) (hx : x ∈ minmaxScale col) :
    0 ≤ x ∧ x ≤ 1 := by
  simp only [minmaxScale, List.mem_map] at hx
  obtain ⟨y, hy, rfl⟩ := hx
  have h1 : listMinD col ≤ y := listMinD_le col y hy
  have h2 : y ≤ listMaxD col := le_listMaxD col y hy
  by_cases hz : listMaxD col - listMinD col = 0
  · have hym : y = listMinD col := le_antisymm (by linarith [sub_eq_zero.mp hz]) h1
    rw [if_pos hz, hym]
    norm_num
  · have hpos : 0 < listMaxD col - listMinD col :=
      lt_of_le_of_ne (by linarith) (Ne.symm hz)
    rw [if_neg hz]
    constructor
    · exact div_nonneg (by linarith) (le_of_lt hpos)
    · rw [div_le_one hpos]
      linarith

/-- The sum of a list of nonnegative rationals is nonnegative. -/
theorem sum_nonneg_list (l : List ℚ) (h : ∀ x ∈ l, 0 ≤ x) : 0 ≤ l.sum := by
  induction l with
  | nil => simp
  | cons x xs ih =>
    simp only [List.sum_cons]
    have hx := h x (List.mem_cons_self x xs)
    have hxs := ih (fun y hy => h y (List.mem_cons_of_mem x hy))
    linarith

/-- The sum of a list of rationals each at most one is at most the
length. -/
theorem sum_le_length (l : List ℚ) (h : ∀ x ∈ l, x ≤ 1) :
    l.sum ≤ (l.length : ℚ) := by
  induction l with
  | nil => simp
  | cons x xs ih =>
    simp only [List.sum_cons, List.length_cons]
    have hx := h x (List.mem_cons_self x xs)
    have hxs := ih (fun y hy => h y (List.mem_cons_of_mem x hy))
    push_cast
    linarith

/-- The mean of a list of unit-interval rationals lies in the unit
interval (the empty mean is `0`). -/
theorem mean_mem_unit (l : List ℚ) (h : ∀ x ∈ l, 0 ≤ x ∧ x ≤ 1) :
    0 ≤ mean l ∧ mean l ≤ 1 := by
  cases l with
  | nil => simp [mean]
  | cons x xs =>
    have hlen : 0 < (((x :: xs).length : Nat) : ℚ) := by
      exact_mod_cast Nat.succ_pos xs.length
    constructor
    · exact div_nonneg (sum_nonneg_list _ (fun y hy => (h y hy).1)) (le_of_lt hlen)
    · rw [mean, div_le_one hlen]
      exact sum_le_length _ (fun y hy => (h y hy).2)

/-- A row-wise mean over min-max normalized columns lies in the unit
interval. -/
theorem groupRowMean_unit (grp : List (String × List ℚ)) (i : Nat) :
    0 ≤ groupRowMean (normalizedGroup grp) i ∧
      groupRowMean (normalizedGroup grp) i ≤ 1 := by
  apply mean_mem_unit
  intro v hv
  simp only [List.mem_map] at hv
  obtain ⟨c, hc, rfl⟩ := hv
  cases hg : c.get? i with
  | none => simp [hg]
  | some y =>
    simp only [hg, Option.getD_some]
    simp only [normalizedGroup, List.mem_map] at hc
    obtain ⟨p, _, rfl⟩ := hc
    exact minmaxScale_mem p.2 y (List.get?_mem hg)

/-- Claim C5: when the raw table has at least one transaction column
and at least one savings column, the engagement score of row `i` is
`0.6` times the row-wise mean of the independently min-max normalized
transaction columns plus `0.4` times the row-wise mean of the
independently min-max normalized savings columns, and this score lies
in `[0, 1]`. -/
theorem c5_engagement_confirmed (cols : List (String × List ℚ)) (n i : Nat)
    (hrect : ∀ p ∈ cols, p.2.length = n)
    (ht : transactionCols cols ≠ [])
    (hs : savingsCols cols ≠ [])
    (hin : i < n) :
    (engagementScores cols n).get? i =
      some (0.6 * groupRowMean (normalizedGroup (transactionCols cols)) i +
        0.4 * groupRowMean (normalizedGroup (savingsCols cols)) i) ∧
    0 ≤ 0.6 * groupRowMean (normalizedGroup (transactionCols cols)) i +
        0.4 * groupRowMean (normalizedGroup (savingsCols cols)) i ∧
    0.6 * groupRowMean (normalizedGroup (transactionCols cols)) i +
        0.4 * groupRowMean (normalizedGroup (savingsCols cols)) i ≤ 1 := by
  obtain ⟨htl, htu⟩ := groupRowMean_unit (transactionCols cols) i
  obtain ⟨hsl, hsu⟩ := groupRowMean_unit (savingsCols cols) i
  refine ⟨?_, by norm_num; linarith, by norm_num; linarith⟩
  simp only [engagementScores, List.get?_map, List.get?_range hin]
  rfl

/-- Witness for C5 on a two-row table with one transaction and one
savings column. -/
theorem c5_witness :
    (DataPipeline.engagementScores
        [("transaction_count", [0, 10]), ("savings_amt", [5, 5])] 2).get? 0 =
      some (0.6 * DataPipeline.groupRowMean
          (DataPipeline.normalizedGroup (DataPipeline.transactionCols
            [("transaction_count", [0, 10]), ("savings_amt", [5, 5])])) 0 +
        0.4 * DataPipeline.groupRowMean
          (DataPipeline.normalizedGroup (DataPipeline.savingsCols
            [("transaction_count", [0, 10]), ("savings_amt", [5, 5])])) 0) :=
  (c5_engagement_confirmed [("transaction_count", [0, 10]), ("savings_amt", [5, 5])]
    2 0 (by decide) (by decide) (by decide) (by decide)).1

/-- With nonnegative summands, every cumulative sum is at least the
starting accumulator. -/
theorem cumsumFrom_mem_ge (l : List ℚ) :
    ∀ acc x, (∀ r ∈ l, 0 ≤ r) → x ∈ cumsumFrom acc l → acc ≤ x := by
  induction l with
  | nil => intro acc x _ hx; cases hx
  | cons r rs ih =>
    intro acc x hpos hx
    rcases List.mem_cons.mp hx with h | h
    · have hr : 0 ≤ r := hpos r (List.mem_cons_self _ _)
      subst h
      linarith
    · have h1 := ih (acc + r) x
        (fun q hq => hpos q (List.mem_cons_of_mem _ hq)) h
      have hr : 0 ≤ r := hpos r (List.mem_cons_self _ _)
      linarith

/-- For nonnegative summands, counting the cumulative sums that do not
exceed the threshold and adding one gives the first position whose
cumulative sum strictly exceeds the threshold. -/
theorem countP_cumsumFrom (thr : ℚ) (l : List ℚ) :
    ∀ acc, (∀ r ∈ l, 0 ≤ r) →
      (cumsumFrom acc l).countP (fun c => decide (c ≤ thr)) + 1 =
        firstIdxGt thr (cumsumFrom acc l) := by
  induction l with
  | nil => intro acc _; rfl
  | cons r rs ih =>
    intro acc hpos
    simp only [cumsumFrom]
    by_cases hgt : thr < acc + r
    · have hrest : (cumsumFrom (acc + r) rs).countP (fun c => decide (c ≤ thr)) = 0 := by
        rw [List.countP_eq_zero]
        intro c hc
        have hge := cumsumFrom_mem_ge rs (acc + r) c
          (fun q hq => hpos q (List.mem_cons_of_mem _ hq)) hc
        simp only [decide_eq_true_eq]
        linarith
      rw [List.countP_cons, hrest]
      simp only [firstIdxGt, if_pos hgt]
      have hhead : (decide ((acc + r) ≤ thr)) = false := by
        simp only [decide_eq_false_iff_not, not_le]
        exact hgt
      rw [hhead]
      rfl
    · have hle : acc + r ≤ thr := not_lt.mp hgt
      rw [List.countP_cons]
      simp only [firstIdxGt, if_neg hgt]
      have hhead : (decide ((acc + r) ≤ thr)) = true := decide_eq_true hle
      rw [hhead]
      have hone : (if true = true then (1 : Nat) else 0) = 1 := rfl
      rw [hone]
      have hrec := ih (acc + r) (fun q hq => hpos q (List.mem_cons_of_mem _ hq))
      omega

/-- Claim C6 (amended): with nonnegative explained-variance ratios,
scikit-learn's fractional component selection retains exactly the
first position whose cumulative explained variance ratio strictly
exceeds the threshold — one more component than the claim's
"at least" rule whenever a cumulative ratio hits the threshold
exactly.  The embedding is a pure function of the ratios, so
re-running it on the same input trivially yields the same count. -/
theorem c6_reducer_amended (ratios : List ℚ) (thr : ℚ)
    (h : ∀ r ∈ ratios, 0 ≤ r) :
    pcaSelectNComponents ratios thr = firstIdxGt thr (cumsum ratios) := by
  unfold pcaSelectNComponents cumsum
  exact countP_cumsumFrom thr ratios 0 h

/-- Counterexample to claim C6 as stated: with explained-variance
ratios `[19/20, 1/20]` the first cumulative ratio already reaches the
`0.95` threshold, so the claimed minimum-`k` rule gives `1`, yet the
selector retains `2` components. -/
theorem c6_counterexample :
    pcaSelectNComponents [19/20, 1/20] (19/20) = 2 ∧
    firstIdxGe (19/20) (cumsum [19/20, 1/20]) = 1 ∧
    pcaSelectNComponents [19/20, 1/20] (19/20) ≠
      firstIdxGe (19/20) (cumsum [19/20, 1/20]) := by
  have hcs : cumsum [(19 : ℚ)/20, 1/20] = [19/20, 1] := by
    norm_num [cumsum, cumsumFrom]
  have h1 : ((19 : ℚ)/20 ≤ 19/20) := le_refl _
  have h2 : ¬((1 : ℚ) ≤ 19/20) := by norm_num
  have hsel : pcaSelectNComponents [19/20, 1/20] (19/20) = 2 := by
    unfold pcaSelectNComponents
    rw [hcs, List.countP_cons, List.countP_cons, List.countP_nil]
    rw [decide_eq_true h1, decide_eq_false h2]
    rfl
  have hfirst : firstIdxGe (19/20) (cumsum [19/20, 1/20]) = 1 := by
    rw [hcs]
    simp only [firstIdxGe, if_pos h1]
  refine ⟨hsel, hfirst, ?_⟩
  rw [hsel, hfirst]
  omega

/-- Witness for the amended C6 on ratios `[1/2, 1/2]`. -/
theorem c6_witness :
    DataPipeline.pcaSelectNComponents [1/2, 1/2] (19/20) =
      DataPipeline.firstIdxGt (19/20) (DataPipeline.cumsum [1/2, 1/2]) :=
  c6_reducer_amended [1/2, 1/2] (19/20) (by norm_num)

/-- The first-minimum index is a valid index of a nonempty list. -/
theorem argminIdx_lt {α : Type} (f : α → ℚ) (l : List α) (h : l ≠ []) :
    argminIdx f l < l.length := by
  induction l with
  | nil => exact absurd rfl h
  | cons x xs ih =>
    cases xs with
    | nil => simp [argminIdx]
    | cons y ys =>
      have hih := ih (by simp)
      simp only [argminIdx]
      by_cases hlt : f ((y :: ys).getD (argminIdx f (y :: ys)) y) < f x
      · rw [if_pos hlt]
        simp only [List.length_cons] at hih ⊢
        omega
      · rw [if_neg hlt]
        simp

/-- Every member of a zipped list is the image of members of the two
input lists. -/
theorem mem_zipWith_ex {α β γ : Type} (f : α → β → γ) (l1 : List α)
    (l2 : List β) (z : γ) (h : z ∈ List.zipWith f l1 l2) :
    ∃ a ∈ l1, ∃ b ∈ l2, z = f a b := by
  induction l1 generalizing l2 with
  | nil => simp at h
  | cons x xs ih =>
    cases l2 with
    | nil => simp at h
    | cons y ys =>
      simp only [List.zipWith] at h
      rcases List.mem_cons.mp h with h1 | h1
      · exact ⟨x, List.mem_cons_self _ _, y, List.mem_cons_self _ _, h1⟩
      · obtain ⟨a, ha, b, hb, rfl⟩ := ih ys h1
        exact ⟨a, List.mem_cons_of_mem _ ha, b, List.mem_cons_of_mem _ hb, rfl⟩

/-- The clustering stage always fails: the row re-read after the
`exclusion_cluster` column was appended has `w + 1` entries, but the
model was fitted on `w` features, so the predict-time feature-count
validation rejects it, whatever the fit produced. -/
theorem clusterStage_always_errors (fit : List (List ℚ) → FittedKMeans)
    (names : List String) (rows : List (List ℚ)) (w : Nat)
    (hne : rows ≠ [])
    (hw : ∀ r ∈ rows, r.length = w)
    (hfit : (fit rows).nFeaturesIn = w)
    (hlab : (fit rows).labels.length = rows.length) :
    clusterFinancialExclusion fit names rows = Except.error featureMismatchMsg := by
  have hkp : kmeansPredict (fit rows)
      (((List.zipWith (fun r (c : Nat) => r ++ [(c : ℚ)]) rows (fit rows).labels).get?
          (argminIdx (fun r =>
              (r.get? (idxOfStr "financial_engagement_score" names)).getD 0)
            (List.zipWith (fun r (c : Nat) => r ++ [(c : ℚ)]) rows
              (fit rows).labels))).getD []) = Except.error featureMismatchMsg := by
    set rows1 := List.zipWith (fun r (c : Nat) => r ++ [(c : ℚ)]) rows (fit rows).labels
      with hrows1
    have hlen1 : rows1.length = rows.length := by
      rw [hrows1, List.length_zipWith, hlab, Nat.min_self]
    have hpos : 0 < rows1.length := by
      rw [hlen1]
      exact List.length_pos.mpr hne
    set minIdx := argminIdx (fun r =>
        (r.get? (idxOfStr "financial_engagement_score" names)).getD 0) rows1 with hmid
    have hidx : minIdx < rows1.length := argminIdx_lt _ _ (List.length_pos.mp hpos)
    have hget : rows1.get? minIdx = some (rows1.get ⟨minIdx, hidx⟩) :=
      List.get?_eq_get hidx
    have hmem : rows1.get ⟨minIdx, hidx⟩ ∈ rows1 := List.get_mem _ _ _
    obtain ⟨r, hr, c, _, hv⟩ := mem_zipWith_ex
      (fun r (c : Nat) => r ++ [(c : ℚ)]) rows (fit rows).labels _ hmem
    have hvlen : (rows1.get ⟨minIdx, hidx⟩).length = w + 1 := by
      rw [hv, List.length_append, hw r hr]
      rfl
    rw [hget, Option.getD_some]
    unfold kmeansPredict
    rw [if_neg]
    rw [hvlen, hfit]
    omega
  unfold clusterFinancialExclusion
  rw [hkp]

/-- Claim C1: instead of computing the exclusion label, the clustering
stage always raises — `kmeans.predict` is re-queried with the
minimum-engagement respondent's row read back after the
`exclusion_cluster` column was appended, so the query has one feature
more than the fitted model accepts. -/
theorem c1_cluster_label_code_bug (fit : List (List ℚ) → FittedKMeans)
    (names : List String) (rows : List (List ℚ)) (w : Nat)
    (hne : rows ≠ [])
    (hw : ∀ r ∈ rows, r.length = w)
    (hfit : (fit rows).nFeaturesIn = w)
    (hlab : (fit rows).labels.length = rows.length) :
    clusterFinancialExclusion fit names rows = Except.error featureMismatchMsg :=
  clusterStage_always_errors fit names rows w hne hw hfit hlab

/-- Witness for C1 on a concrete three-row processed table. -/
theorem c1_witness :
    DataPipeline.clusterFinancialExclusion DataPipeline.simpleKMeansFit
      ["PC1", "financial_engagement_score"] [[0, 1], [2, 3], [4, 5]] =
      Except.error DataPipeline.featureMismatchMsg :=
  c1_cluster_label_code_bug simpleKMeansFit
    ["PC1", "financial_engagement_score"] [[0, 1], [2, 3], [4, 5]] 2
    (by decide) (by decide) (by decide) (by decide)

/-- Counterexample to claim C7 as stated: at this concrete processed
table the clustering stage yields no output table at all (it fails the
predict-time feature-count validation), so not every pipeline stage
produces a row-aligned output. -/
theorem c7_counterexample :
    isOkE (clusterFinancialExclusion simpleKMeansFit
      ["financial_engagement_score"] [[1], [2]]) = false := by decide

/-- Position `i` of a zipped list combines exactly the entries at
position `i` of the two input lists. -/
theorem get?_zipWith_ex {α β γ : Type} (f : α → β → γ) (l1 : List α)
    (l2 : List β) :
    ∀ i : Nat, (List.zipWith f l1 l2).get? i =
      (l1.get? i).bind (fun a => (l2.get? i).map (fun b => f a b)) := by
  induction l1 generalizing l2 with
  | nil => intro i; cases l2 <;> simp
  | cons x xs ih =>
    intro i
    cases l2 with
    | nil => simp
    | cons y ys =>
      cases i with
      | zero => simp [List.zipWith]
      | succ n =>
        simp only [List.zipWith, List.get?]
        exact ih ys n

/-- Claim C7 (amended): imputation, encoding, normalization, reduction
and the two score calculations each produce exactly as many entries as
their input has rows, and entry `i` of every produced column or row
list is computed from entry `i` of its input — row order is preserved,
so row `i` of every produced table still refers to the same respondent
as row `i` of the raw table.  The clustering stage appends a cluster
column that is row-aligned in the same entrywise sense, but always
fails before returning its output table. -/
theorem c7_row_alignment_amended :
    (∀ col : List (Option ℚ),
      (imputeNumericCol col).length = col.length ∧
      ∀ i : Nat, (imputeNumericCol col).get? i =
        (col.get? i).map (fun o => o.getD (median (col.filterMap id)))) ∧
    (∀ col : List (Option String),
      (imputeCatCol col).length = col.length ∧
      ∀ i : Nat, (imputeCatCol col).get? i =
        (col.get? i).map (fun o => o.getD (modeStr (col.filterMap id)))) ∧
    (∀ (name : String) (vals : List String), ∀ p ∈ getDummies name vals,
      p.2.length = vals.length ∧
      ∃ v : String, ∀ i : Nat, p.2.get? i =
        (vals.get? i).map (fun x => if x = v then (1 : ℚ) else 0)) ∧
    (∀ vals : List String,
      (labelEncode vals).length = vals.length ∧
      ∀ i : Nat, (labelEncode vals).get? i =
        (vals.get? i).map (fun v => ((idxOfStr v (sortBy strLeB vals.dedup)) : ℚ))) ∧
    (∀ col : List ℚ,
      (minmaxScale col).length = col.length ∧
      ∀ i : Nat, (minmaxScale col).get? i =
        (col.get? i).map (fun x => (x - listMinD col) /
          (if listMaxD col - listMinD col = 0 then 1
           else listMaxD col - listMinD col))) ∧
    (∀ (comps : List (List ℚ)) (mu : List ℚ) (rows : List (List ℚ)),
      (pcaTransform comps mu rows).length = rows.length ∧
      ∀ i : Nat, (pcaTransform comps mu rows).get? i =
        (rows.get? i).map (fun r => comps.map (fun c =>
          (List.zipWith (fun a b => a * b) c
            (List.zipWith (fun x m => x - m) r mu)).sum))) ∧
    (∀ (cols : List (String × List ℚ)) (n : Nat),
      (engagementScores cols n).length = n ∧
      ∀ i : Nat, i < n → (engagementScores cols n).get? i =
        some (0.6 * groupRowMean (normalizedGroup (transactionCols cols)) i +
          0.4 * groupRowMean (normalizedGroup (savingsCols cols)) i)) ∧
    (∀ (edu : List String) (qui : List ℚ) (n : Nat),
      (edu.length = n → qui.length = n → (literacyScores edu qui).length = n) ∧
      ∀ i : Nat, (literacyScores edu qui).get? i =
        ((minmaxScaleOpt (edu.map educationMapping)).get? i).bind
          (fun e => ((minmaxScale qui).get? i).map
            (fun q => Option.map (fun ev => 0.6 * ev + 0.4 * q) e))) ∧
    (∀ (fit : List (List ℚ) → FittedKMeans) (rows : List (List ℚ)) (i : Nat),
      (List.zipWith (fun r (c : Nat) => r ++ [(c : ℚ)]) rows
          (fit rows).labels).get? i =
        (rows.get? i).bind (fun r => ((fit rows).labels.get? i).map
          (fun (c : Nat) => r ++ [(c : ℚ)]))) ∧
    (∀ (fit : List (List ℚ) → FittedKMeans) (names : List String)
        (rows : List (List ℚ)) (w : Nat),
      rows ≠ [] → (∀ r ∈ rows, r.length = w) →
      (fit rows).nFeaturesIn = w → (fit rows).labels.length = rows.length →
      isOkE (clusterFinancialExclusion fit names rows) = false) := by
  refine ⟨?_, ?_, ?_, ?_, ?_, ?_, ?_, ?_, ?_, ?_⟩
  · intro col
    refine ⟨by simp [imputeNumericCol], fun i => ?_⟩
    simp only [imputeNumericCol, List.get?_map]
  · intro col
    refine ⟨by simp [imputeCatCol], fun i => ?_⟩
    simp only [imputeCatCol, List.get?_map]
  · intro name vals p hp
    simp only [getDummies, List.mem_map] at hp
    obtain ⟨v, _, rfl⟩ := hp
    refine ⟨by simp, v, fun i => ?_⟩
    simp only [List.get?_map]
  · intro vals
    refine ⟨by simp [labelEncode], fun i => ?_⟩
    simp only [labelEncode, List.get?_map]
  · intro col
    refine ⟨by simp [minmaxScale], fun i => ?_⟩
    simp only [minmaxScale, List.get?_map]
  · intro comps mu rows
    refine ⟨by simp [pcaTransform], fun i => ?_⟩
    simp only [pcaTransform, List.get?_map]
  · intro cols n
    refine ⟨by simp [engagementScores], fun i hin => ?_⟩
    simp only [engagementScores, List.get?_map, List.get?_range hin]
    rfl
  · intro edu qui n
    constructor
    · intro he hq
      simp only [literacyScores, List.length_zipWith, minmaxScaleOpt, minmaxScale,
        List.length_map, he, hq]
      omega
    · intro i
      simp only [literacyScores]
      rw [get?_zipWith_ex]
  · intro fit rows i
    exact get?_zipWith_ex (fun r (c : Nat) => r ++ [(c : ℚ)]) rows (fit rows).labels i
  · intro fit names rows w hne hw hfit hlab
    rw [clusterStage_always_errors fit names rows w hne hw hfit hlab]
    rfl

/-- Witness for the amended C7 at concrete stage inputs, exercising
both the row-count and the entrywise row-alignment conjuncts. -/
theorem c7_witness :
    (DataPipeline.imputeNumericCol [some 1, none, some 3]).length = 3 ∧
    (DataPipeline.imputeNumericCol [some 1, none, some 3]).get? 0 =
      (([some 1, none, some 3] : List (Option ℚ)).get? 0).map
        (fun o => o.getD (DataPipeline.median
          (([some 1, none, some 3] : List (Option ℚ)).filterMap id))) ∧
    (DataPipeline.engagementScores [("transaction_a", [1, 2])] 2).get? 0 =
      some (0.6 * DataPipeline.groupRowMean
          (DataPipeline.normalizedGroup (DataPipeline.transactionCols
            [("transaction_a", [1, 2])])) 0 +
        0.4 * DataPipeline.groupRowMean
          (DataPipeline.normalizedGroup (DataPipeline.savingsCols
            [("transaction_a", [1, 2])])) 0) ∧
    DataPipeline.isOkE (DataPipeline.clusterFinancialExclusion
      DataPipeline.simpleKMeansFit ["a"] [[1, 2], [3, 4]]) = false :=
  ⟨(c7_row_alignment_amended.1 [some 1, none, some 3]).1,
   (c7_row_alignment_amended.1 [some 1, none, some 3]).2 0,
   (c7_row_alignment_amended.2.2.2.2.2.2.1 [("transaction_a", [1, 2])] 2).2 0
     (by decide),
   c7_row_alignment_amended.2.2.2.2.2.2.2.2.2 simpleKMeansFit ["a"]
     [[1, 2], [3, 4]] 2 (by decide) (by decide) (by decide) (by decide)⟩

/-- Claim C2: a categorical column with 11 distinct values is
high-cardinality, yet the encoder emits both its 11 one-hot indicator
columns (get_dummies is applied to every categorical column) and its
integer-coded `_encoded` column, so the two treatments are not
mutually exclusive as the claim states. -/
theorem c2_encoder_code_bug :
    nuniqueStr ["a", "b", "c", "d", "e", "f", "g", "h", "i", "j", "k"] = 11 ∧
    10 < nuniqueStr ["a", "b", "c", "d", "e", "f", "g", "h", "i", "j", "k"] ∧
    (encodeCatColumns
        [("city", ["a", "b", "c", "d", "e", "f", "g", "h", "i", "j", "k"])]).map
        Prod.fst =
      ["city_a", "city_b", "city_c", "city_d", "city_e", "city_f", "city_g",
       "city_h", "city_i", "city_j", "city_k", "city_encoded"] := by decide

/-- Claim C8: an education value outside the fixed lookup is silently
coerced to a missing score instead of surfacing an error — the
calculator returns a value for every row, with `none` (the embedded
NaN) at the unmapped row, and the mapped rows still get
`0.6` education + `0.4` quintile. -/
theorem c8_literacy_code_bug :
    educationMapping "Kindergarten" = none ∧
    literacyScores ["Primary", "Secondary", "Kindergarten"] [1, 2, 3] =
      [some 0, some (4/5), none] := by
  constructor
  · decide
  · have hmap : (["Primary", "Secondary", "Kindergarten"].map educationMapping) =
        [some (1 : ℚ), some 2, none] := by decide
    have hfm : (List.filterMap id [some (1 : ℚ), some 2, none]) = [1, 2] := by decide
    have hmn1 : listMinD [(1 : ℚ), 2] = 1 := by decide
    have hmx1 : listMaxD [(1 : ℚ), 2] = 2 := by decide
    have hmn2 : listMinD [(1 : ℚ), 2, 3] = 1 := by decide
    have hmx2 : listMaxD [(1 : ℚ), 2, 3] = 3 := by decide
    unfold literacyScores minmaxScaleOpt minmaxScale
    rw [hmap, hfm, hmn1, hmx1, hmn2, hmx2]
    norm_num

/-- Counterexample to claim C9 as stated: the bench contains a model
whose training draws random numbers yet is constructed without a
seed, so the premise that all randomness of the bench is controlled
by fixed seeds is false for this configuration. -/
theorem c9_counterexample :
    ∃ m ∈ benchModels,
      m.fitDrawsRandomNumbers = true ∧ m.randomState = none := by decide

/-- Claim C9 (amended): the train/test split is seeded with 42 and the
logistic-regression and SVC fits are deterministic, but the random
forest and gradient boosting classifiers are constructed without a
`random_state`, so their training randomness is unseeded and their
reported metrics are not guaranteed bit-reproducible across runs. -/
theorem c9_bench_amended :
    trainTestSplitRandomState = some 42 ∧
    (benchModels.filter
        (fun m => m.fitDrawsRandomNumbers && m.randomState.isNone)).map
        ModelConfig.name =
      ["Random Forest", "Gradient Boosting"] ∧
    (benchModels.filter (fun m => !m.fitDrawsRandomNumbers)).map
        ModelConfig.name =
      ["Logistic Regression", "SVM"] := by decide

/-- Claim C10: the feature matrix drops only the
`financial_exclusion_label` column, so the `exclusion_cluster` column
(and every other non-label column, the composite scores included)
remains among the training features, and the target label is exactly
the indicator of that retained cluster column equalling the fixed
cluster id. -/
theorem c10_features_confirmed (cols : List (String × List ℚ))
    (cl lbl : List ℚ) (c : ℚ)
    (hcl : ("exclusion_cluster", cl) ∈ cols)
    (hdef : lbl = cl.map (fun x => if x = c then (1 : ℚ) else 0)) :
    ("exclusion_cluster", cl) ∈ trainFeatures cols ∧
    (∀ p ∈ cols, p.1 ≠ "financial_exclusion_label" → p ∈ trainFeatures cols) ∧
    (∀ i : Nat, lbl.get? i =
      (cl.get? i).map (fun x => if x = c then (1 : ℚ) else 0)) := by
  refine ⟨?_, ?_, ?_⟩
  · refine List.mem_filter.mpr ⟨hcl, ?_⟩
    show (!("exclusion_cluster" == "financial_exclusion_label")) = true
    decide
  · intro p hp hp1
    refine List.mem_filter.mpr ⟨hp, ?_⟩
    simp only [Bool.not_eq_true', beq_eq_false_iff_ne]
    exact hp1
  · intro i
    rw [hdef, List.get?_map]

/-- Witness for C10 on a concrete labeled table with cluster id 0. -/
theorem c10_witness :
    ("exclusion_cluster", ([0, 1] : List ℚ)) ∈ DataPipeline.trainFeatures
      [("PC1", [1, 2]), ("financial_engagement_score", [1, 2]),
       ("exclusion_cluster", [0, 1]), ("financial_exclusion_label", [1, 0])] ∧
    ([1, 0] : List ℚ).get? 0 =
      (([0, 1] : List ℚ).get? 0).map
        (fun x => if x = (0 : ℚ) then (1 : ℚ) else 0) := by
  have h := c10_features_confirmed
    [("PC1", [1, 2]), ("financial_engagement_score", [1, 2]),
     ("exclusion_cluster", [0, 1]), ("financial_exclusion_label", [1, 0])]
    [0, 1] [1, 0] 0 (by decide) (by decide)
  exact ⟨h.1, h.2.2 0⟩

end DataPipeline
